import Mathlib

/-!
Verification development for the tg-blobsync reconciliation engine.

The Go source is embedded shallowly:
* domain entities (`internal/domain/entity.go`) become Lean structures;
* the pure differ (`DiffPush`, `DiffPull`, `shouldUpdate` in the usecase
  package) becomes pure Lean functions over association-list inventories
  (Go maps are modelled as lists of key/value pairs with distinct keys;
  iteration order of a Go map is some enumeration of its entries, which the
  list order represents);
* the retry wrapper (`internal/pkg/retry/retry.go`) becomes a fuelled
  interpreter producing a trace (result, number of invocations, waits);
* the executor (`internal/usecase/executor.go`) return-value semantics
  becomes a pure function over an environment assigning an outcome to each
  storage/filesystem call.
-/

namespace TgBlobSync

/-- Embedding of `domain.FileMeta` (entity.go): the metadata stored in the
caption of the Telegram message. -/
structure FileMeta where
  path : String
  checksum : String
  modTime : Int
  flags : String
deriving DecidableEq, Repr

/-- Embedding of `domain.RemoteFile` (entity.go): a file stored on Telegram. -/
structure RemoteFile where
  meta : FileMeta
  messageID : Int
  size : Int
deriving DecidableEq, Repr

/-- Embedding of `domain.LocalFile` (entity.go): a file on the local
filesystem. -/
structure LocalFile where
  path : String
  checksum : String
  modTime : Int
  size : Int
  absPath : String
deriving DecidableEq, Repr

/-- Embedding of `domain.SyncActionType` (entity.go). -/
inductive SyncActionType where
  | upload
  | download
  | deleteRemote
  | deleteLocal
  | skip
deriving DecidableEq, Repr

/-- Embedding of `domain.SyncItem` (entity.go): a single synchronization
task. -/
structure SyncItem where
  path : String
  action : SyncActionType
  localFile : Option LocalFile
  remoteFile : Option RemoteFile
  reason : String
deriving DecidableEq, Repr

/-- Embedding of `domain.SyncSummary` (entity.go). -/
structure SyncSummary where
  toUpload : Nat
  toDownload : Nat
  toUpdate : Nat
  toDelete : Nat
  total : Nat
deriving DecidableEq, Repr

/-- Embedding of `domain.SyncPlan` (entity.go). -/
structure SyncPlan where
  items : List SyncItem
  summary : SyncSummary
deriving DecidableEq, Repr

/-- A Go `map[string]α` is modelled as an association list whose keys are
pairwise distinct; the list order stands for the (unspecified) enumeration
order of the map. -/
abbrev Inventory (α : Type) := List (String × α)

/-- Go map indexing `m[p]`. -/
def invLookup {α : Type} (p : String) : Inventory α → Option α
  | [] => none
  | (q, v) :: rest => if q = p then some v else invLookup p rest

/-- The defining invariant of a Go map in the association-list model:
keys are pairwise distinct. -/
abbrev keysNodup {α : Type} (m : Inventory α) : Prop :=
  (m.map Prod.fst).Nodup

/-- Embedding of `differ.shouldUpdate` (usecase differ): when `skipMD5` is
set it compares `ModTime` and `Size` (treating a remote entry flagged
`EMPTY_FILE` as size 0), otherwise it compares checksums. -/
def shouldUpdate (skipMD5 : Bool) (lf : LocalFile) (rf : RemoteFile) : Bool :=
  if skipMD5 then
    let remoteSize := if rf.meta.flags = "EMPTY_FILE" then 0 else rf.size
    decide (rf.meta.modTime ≠ lf.modTime) || decide (remoteSize ≠ lf.size)
  else
    decide (rf.meta.checksum ≠ lf.checksum)

/-- The item produced by the first loop of `differ.DiffPush` for a local
entry `(p, lf)`: an `Upload`/"New file" when `p` is absent remotely, an
`Upload`/"Changed" (carrying the stale remote entry) when the remote
counterpart differs, nothing otherwise. -/
def pushItemForLocal (skipMD5 : Bool) (remote : Inventory RemoteFile)
    (p : String) (lf : LocalFile) : Option SyncItem :=
  match invLookup p remote with
  | none =>
    some { path := p, action := .upload, localFile := some lf,
           remoteFile := none, reason := "New file" }
  | some rf =>
    if shouldUpdate skipMD5 lf rf then
      some { path := p, action := .upload, localFile := some lf,
             remoteFile := some rf, reason := "Changed" }
    else
      none

/-- The item produced by the second loop of `differ.DiffPush` for a remote
entry `(p, rf)`: a `DeleteRemote`/"Deleted locally" when `p` is absent
locally. -/
def pushItemForRemote (locm : Inventory LocalFile)
    (p : String) (rf : RemoteFile) : Option SyncItem :=
  match invLookup p locm with
  | none =>
    some { path := p, action := .deleteRemote, localFile := none,
           remoteFile := some rf, reason := "Deleted locally" }
  | some _ => none

/-- Embedding of `differ.DiffPush` (usecase differ): first loop over the
local inventory (Upload items, counting `ToUpload`/`ToUpdate`), second loop
over the remote inventory (DeleteRemote items, counting `ToDelete`);
`Total` is the length of the item list. -/
def DiffPush (skipMD5 : Bool) (locm : Inventory LocalFile)
    (remote : Inventory RemoteFile) : SyncPlan :=
  let localItems := locm.filterMap fun pr => pushItemForLocal skipMD5 remote pr.1 pr.2
  let deleteItems := remote.filterMap fun pr => pushItemForRemote locm pr.1 pr.2
  let items := localItems ++ deleteItems
  { items := items
    summary :=
      { toUpload := (locm.filter fun pr => (invLookup pr.1 remote).isNone).length
        toDownload := 0
        toUpdate := (locm.filter fun pr =>
            match invLookup pr.1 remote with
            | some rf => shouldUpdate skipMD5 pr.2 rf
            | none => false).length
        toDelete := (remote.filter fun pr => (invLookup pr.1 locm).isNone).length
        total := items.length } }

/-- The item produced by the first loop of `differ.DiffPull` for a remote
entry `(p, rf)`: a `Download`/"New remote file" when `p` is absent locally,
a `Download`/"Changed remote" when the local counterpart differs, nothing
otherwise. -/
def pullItemForRemote (skipMD5 : Bool) (locm : Inventory LocalFile)
    (p : String) (rf : RemoteFile) : Option SyncItem :=
  match invLookup p locm with
  | none =>
    some { path := p, action := .download, localFile := none,
           remoteFile := some rf, reason := "New remote file" }
  | some lf =>
    if shouldUpdate skipMD5 lf rf then
      some { path := p, action := .download, localFile := some lf,
             remoteFile := some rf, reason := "Changed remote" }
    else
      none

/-- The item produced by the second loop of `differ.DiffPull` for a local
entry `(p, lf)`: a `DeleteLocal`/"Deleted remotely" when `p` is absent
remotely. -/
def pullItemForLocal (remote : Inventory RemoteFile)
    (p : String) (lf : LocalFile) : Option SyncItem :=
  match invLookup p remote with
  | none =>
    some { path := p, action := .deleteLocal, localFile := some lf,
           remoteFile := none, reason := "Deleted remotely" }
  | some _ => none

/-- Embedding of `differ.DiffPull` (usecase differ): first loop over the
remote inventory (Download items, counting `ToDownload`/`ToUpdate`), second
loop over the local inventory (DeleteLocal items, counting `ToDelete`);
`Total` is the length of the item list. -/
def DiffPull (skipMD5 : Bool) (locm : Inventory LocalFile)
    (remote : Inventory RemoteFile) : SyncPlan :=
  let remoteItems := remote.filterMap fun pr => pullItemForRemote skipMD5 locm pr.1 pr.2
  let deleteItems := locm.filterMap fun pr => pullItemForLocal remote pr.1 pr.2
  let items := remoteItems ++ deleteItems
  { items := items
    summary :=
      { toUpload := 0
        toDownload := (remote.filter fun pr => (invLookup pr.1 locm).isNone).length
        toUpdate := (remote.filter fun pr =>
            match invLookup pr.1 locm with
            | some lf => shouldUpdate skipMD5 lf pr.2
            | none => false).length
        toDelete := (locm.filter fun pr => (invLookup pr.1 remote).isNone).length
        total := items.length } }

/-! ### Basic association-list lemmas -/

theorem invLookup_cons {α : Type} (q : String) (v : α) (m : Inventory α) (p : String) :
    invLookup p ((q, v) :: m) = if q = p then some v else invLookup p m := rfl

theorem isSome_invLookup_of_mem {α : Type} {m : Inventory α} {pr : String × α}
    (h : pr ∈ m) : (invLookup pr.1 m).isSome := by
  induction m with
  | nil => cases h
  | cons a rest ih =>
    rcases List.mem_cons.mp h with h | h
    · subst h
      simp [invLookup]
    · by_cases hq : a.1 = pr.1
      · simp [invLookup, hq]
      · simpa [invLookup, hq] using ih h

theorem invLookup_eq_of_mem {α : Type} {m : Inventory α} {pr : String × α}
    (hn : keysNodup m) (h : pr ∈ m) : invLookup pr.1 m = some pr.2 := by
  induction m with
  | nil => cases h
  | cons a rest ih =>
    simp only [keysNodup, List.map_cons, List.nodup_cons] at hn
    rcases List.mem_cons.mp h with h | h
    · subst h
      simp [invLookup]
    · have hne : a.1 ≠ pr.1 := fun he =>
        hn.1 (he ▸ List.mem_map_of_mem Prod.fst h)
      simpa [invLookup, hne] using ih hn.2 h

/-- All items of a list whose `Path` field equals `p`. -/
def itemsAt (p : String) (l : List SyncItem) : List SyncItem :=
  l.filter fun it => decide (it.path = p)

theorem itemsAt_append (p : String) (a b : List SyncItem) :
    itemsAt p (a ++ b) = itemsAt p a ++ itemsAt p b := by
  simp [itemsAt]

theorem path_pushItemForLocal {d : Bool} {R : Inventory RemoteFile}
    {p : String} {lf : LocalFile} {it : SyncItem}
    (h : pushItemForLocal d R p lf = some it) : it.path = p := by
  unfold pushItemForLocal at h
  split at h
  · cases h; rfl
  · split at h
    · cases h; rfl
    · cases h

theorem path_pushItemForRemote {L : Inventory LocalFile}
    {p : String} {rf : RemoteFile} {it : SyncItem}
    (h : pushItemForRemote L p rf = some it) : it.path = p := by
  unfold pushItemForRemote at h
  split at h
  · cases h; rfl
  · cases h

theorem path_pullItemForRemote {d : Bool} {L : Inventory LocalFile}
    {p : String} {rf : RemoteFile} {it : SyncItem}
    (h : pullItemForRemote d L p rf = some it) : it.path = p := by
  unfold pullItemForRemote at h
  split at h
  · cases h; rfl
  · split at h
    · cases h; rfl
    · cases h

theorem path_pullItemForLocal {R : Inventory RemoteFile}
    {p : String} {lf : LocalFile} {it : SyncItem}
    (h : pullItemForLocal R p lf = some it) : it.path = p := by
  unfold pullItemForLocal at h
  split at h
  · cases h; rfl
  · cases h

theorem itemsAt_filterMap_eq_nil {α : Type} (p : String) (m : Inventory α)
    (f : String × α → Option SyncItem)
    (hf : ∀ pr it, f pr = some it → it.path = pr.1)
    (hm : ∀ pr ∈ m, pr.1 ≠ p) :
    itemsAt p (m.filterMap f) = [] := by
  induction m with
  | nil => rfl
  | cons a rest ih =>
    have hrest : ∀ pr ∈ rest, pr.1 ≠ p := fun pr h => hm pr (List.mem_cons_of_mem a h)
    rw [List.filterMap_cons]
    cases hfa : f a with
    | none => exact ih hrest
    | some it =>
      have hne : it.path ≠ p := (hf a it hfa) ▸ hm a (List.mem_cons_self a rest)
      simpa [itemsAt, List.filter_cons, hne] using ih hrest

theorem itemsAt_filterMap_keyed {α : Type} (p : String) (m : Inventory α)
    (f : String × α → Option SyncItem)
    (hf : ∀ pr it, f pr = some it → it.path = pr.1)
    (hn : keysNodup m) :
    itemsAt p (m.filterMap f) =
      match invLookup p m with
      | none => []
      | some v => (f (p, v)).toList := by
  induction m with
  | nil => rfl
  | cons a rest ih =>
    obtain ⟨q, v⟩ := a
    simp only [keysNodup, List.map_cons, List.nodup_cons] at hn
    obtain ⟨hnot, hrest⟩ := hn
    rw [List.filterMap_cons]
    by_cases hq : q = p
    · subst hq
      have hnil : itemsAt q (rest.filterMap f) = [] :=
        itemsAt_filterMap_eq_nil q rest f hf
          (fun pr h he => hnot (he ▸ List.mem_map_of_mem Prod.fst h))
      cases hfa : f (q, v) with
      | none =>
        simp [invLookup, hfa, hnil]
      | some it =>
        have hit : it.path = q := hf (q, v) it hfa
        have hcons : itemsAt q (it :: rest.filterMap f) = it :: itemsAt q (rest.filterMap f) := by
          simp [itemsAt, List.filter_cons, hit]
        rw [hcons, hnil]
        simp [invLookup, hfa]
    · have hlk : invLookup p ((q, v) :: rest) = invLookup p rest := by
        simp [invLookup, hq]
      rw [hlk]
      cases hfa : f (q, v) with
      | none => exact ih hrest
      | some it =>
        have hne : it.path ≠ p := fun he => hq ((hf (q, v) it hfa).symm.trans he)
        simpa [itemsAt, List.filter_cons, hne] using ih hrest

/-- Per-path characterization of `DiffPush`: the items carrying path `p`
are exactly those dictated by the two inventory lookups at `p`. -/
theorem itemsAt_DiffPush (d : Bool) (L : Inventory LocalFile)
    (R : Inventory RemoteFile) (hL : keysNodup L) (hR : keysNodup R)
    (p : String) :
    itemsAt p (DiffPush d L R).items =
      (match invLookup p L with
       | none => []
       | some lf => (pushItemForLocal d R p lf).toList) ++
      (match invLookup p R with
       | none => []
       | some rf => (pushItemForRemote L p rf).toList) := by
  show itemsAt p (List.filterMap _ L ++ List.filterMap _ R) = _
  rw [itemsAt_append,
    itemsAt_filterMap_keyed p L _ (fun pr it h => path_pushItemForLocal h) hL,
    itemsAt_filterMap_keyed p R _ (fun pr it h => path_pushItemForRemote h) hR]
  cases invLookup p L <;> cases invLookup p R <;> rfl

/-- Per-path characterization of `DiffPull`: the items carrying path `p`
are exactly those dictated by the two inventory lookups at `p`. -/
theorem itemsAt_DiffPull (d : Bool) (L : Inventory LocalFile)
    (R : Inventory RemoteFile) (hL : keysNodup L) (hR : keysNodup R)
    (p : String) :
    itemsAt p (DiffPull d L R).items =
      (match invLookup p R with
       | none => []
       | some rf => (pullItemForRemote d L p rf).toList) ++
      (match invLookup p L with
       | none => []
       | some lf => (pullItemForLocal R p lf).toList) := by
  show itemsAt p (List.filterMap _ R ++ List.filterMap _ L) = _
  rw [itemsAt_append,
    itemsAt_filterMap_keyed p R _ (fun pr it h => path_pullItemForRemote h) hR,
    itemsAt_filterMap_keyed p L _ (fun pr it h => path_pullItemForLocal h) hL]
  cases invLookup p L <;> cases invLookup p R <;> rfl

theorem length_toList_le_one {α : Type} (o : Option α) : o.toList.length ≤ 1 := by
  cases o <;> simp

theorem length_itemsAt_DiffPush_le_one (d : Bool) (L : Inventory LocalFile)
    (R : Inventory RemoteFile) (hL : keysNodup L) (hR : keysNodup R)
    (p : String) : (itemsAt p (DiffPush d L R).items).length ≤ 1 := by
  rw [itemsAt_DiffPush d L R hL hR p]
  cases hl : invLookup p L with
  | none =>
    cases hr : invLookup p R with
    | none => simp
    | some rf => simpa using length_toList_le_one (pushItemForRemote L p rf)
  | some lf =>
    cases hr : invLookup p R with
    | none => simpa using length_toList_le_one (pushItemForLocal d R p lf)
    | some rf =>
      have h2 : pushItemForRemote L p rf = none := by
        simp [pushItemForRemote, hl]
      simpa [h2] using length_toList_le_one (pushItemForLocal d R p lf)

theorem length_itemsAt_DiffPull_le_one (d : Bool) (L : Inventory LocalFile)
    (R : Inventory RemoteFile) (hL : keysNodup L) (hR : keysNodup R)
    (p : String) : (itemsAt p (DiffPull d L R).items).length ≤ 1 := by
  rw [itemsAt_DiffPull d L R hL hR p]
  cases hl : invLookup p L with
  | none =>
    cases hr : invLookup p R with
    | none => simp
    | some rf => simpa using length_toList_le_one (pullItemForRemote d L p rf)
  | some lf =>
    cases hr : invLookup p R with
    | none => simpa using length_toList_le_one (pullItemForLocal R p lf)
    | some rf =>
      have h2 : pullItemForLocal R p lf = none := by
        simp [pullItemForLocal, hr]
      simpa [h2] using length_toList_le_one (pullItemForRemote d L p rf)

theorem pairwise_ne_path_of_itemsAt (l : List SyncItem)
    (h : ∀ p, (itemsAt p l).length ≤ 1) :
    l.Pairwise (fun a b => a.path ≠ b.path) := by
  induction l with
  | nil => exact List.Pairwise.nil
  | cons a t ih =>
    have hcons : itemsAt a.path (a :: t) = a :: itemsAt a.path t := by
      simp [itemsAt, List.filter_cons]
    have h1 := h a.path
    rw [hcons] at h1
    have hnil : itemsAt a.path t = [] :=
      List.eq_nil_of_length_eq_zero (Nat.le_zero.mp (Nat.lt_succ_iff.mp h1))
    refine List.Pairwise.cons (fun b hb => ?_) (ih fun p => ?_)
    · intro he
      have hbmem : b ∈ itemsAt a.path t :=
        List.mem_filter.mpr ⟨hb, by simp [he.symm]⟩
      rw [hnil] at hbmem
      cases hbmem
    · by_cases hap : a.path = p
      · have : itemsAt p (a :: t) = a :: itemsAt p t := by
          simp [itemsAt, List.filter_cons, hap]
        have hp := h p
        rw [this] at hp
        exact Nat.le_of_lt (Nat.lt_of_lt_of_le (Nat.lt_succ_of_le (Nat.le_refl _))
          (by simpa using hp))
      · have : itemsAt p (a :: t) = itemsAt p t := by
          simp [itemsAt, List.filter_cons, hap]
        have hp := h p
        rwa [this] at hp

theorem diffPush_items_pairwise (d : Bool) (L : Inventory LocalFile)
    (R : Inventory RemoteFile) (hL : keysNodup L) (hR : keysNodup R) :
    (DiffPush d L R).items.Pairwise (fun a b => a.path ≠ b.path) :=
  pairwise_ne_path_of_itemsAt _ fun p => length_itemsAt_DiffPush_le_one d L R hL hR p

theorem diffPull_items_pairwise (d : Bool) (L : Inventory LocalFile)
    (R : Inventory RemoteFile) (hL : keysNodup L) (hR : keysNodup R) :
    (DiffPull d L R).items.Pairwise (fun a b => a.path ≠ b.path) :=
  pairwise_ne_path_of_itemsAt _ fun p => length_itemsAt_DiffPull_le_one d L R hL hR p

/-! ### Sample inventories used by the spec's scenarios -/

/-- Scenario local file `a.txt (H1)`. -/
def laSample : LocalFile := ⟨"a.txt", "H1", 100, 10, "/root/a.txt"⟩

/-- Scenario local file `b.txt (H2)`. -/
def lbSample : LocalFile := ⟨"b.txt", "H2", 100, 20, "/root/b.txt"⟩

/-- Scenario remote file `a.txt (H1)`. -/
def raSample : RemoteFile := ⟨⟨"a.txt", "H1", 100, ""⟩, 1, 10⟩

/-- Scenario remote file `c.txt (H3)`. -/
def rcSample : RemoteFile := ⟨⟨"c.txt", "H3", 100, ""⟩, 2, 30⟩

/-- Scenario local inventory `{a.txt (H1), b.txt (H2)}`. -/
def sampleLocal : Inventory LocalFile := [("a.txt", laSample), ("b.txt", lbSample)]

/-- Scenario remote inventory `{a.txt (H1), c.txt (H3)}`. -/
def sampleRemote : Inventory RemoteFile := [("a.txt", raSample), ("c.txt", rcSample)]

/-- Comparison-policy-switch scenario: local `{p: hash=H1, modTime=100, size=10}`. -/
def lpSample : LocalFile := ⟨"p", "H1", 100, 10, "/root/p"⟩

/-- Comparison-policy-switch scenario: remote `{p: hash=H1, modTime=200, size=10}`. -/
def rpSample : RemoteFile := ⟨⟨"p", "H1", 200, ""⟩, 1, 10⟩

/-! ### Claim theorems about the differ -/

/-- C2: `DiffPush` emits exactly one `Upload`/"New file" item for each path
present locally but not remotely, exactly one `Upload`/"Changed" item
(carrying both the local file and the stale remote entry) for each path
present on both sides whose comparability key differs, no item for a path
whose comparability key matches, and exactly one `DeleteRemote`/"Deleted
locally" item for each path present remotely but not locally; the spec's
scenario (local `{a.txt (H1), b.txt (H2)}`, remote `{a.txt (H1), c.txt
(H3)}` under hash comparison) produces exactly `Upload(b.txt, "New file")`,
`DeleteRemote(c.txt, "Deleted locally")` with summary
`{toUpload:1, toDelete:1, total:2}`. -/
theorem diffPush_classification :
    (∀ (d : Bool) (L : Inventory LocalFile) (R : Inventory RemoteFile),
      keysNodup L → keysNodup R →
      (∀ p lf, invLookup p L = some lf → invLookup p R = none →
        itemsAt p (DiffPush d L R).items =
          [⟨p, .upload, some lf, none, "New file"⟩]) ∧
      (∀ p lf rf, invLookup p L = some lf → invLookup p R = some rf →
        shouldUpdate d lf rf = true →
        itemsAt p (DiffPush d L R).items =
          [⟨p, .upload, some lf, some rf, "Changed"⟩]) ∧
      (∀ p lf rf, invLookup p L = some lf → invLookup p R = some rf →
        shouldUpdate d lf rf = false →
        itemsAt p (DiffPush d L R).items = []) ∧
      (∀ p rf, invLookup p L = none → invLookup p R = some rf →
        itemsAt p (DiffPush d L R).items =
          [⟨p, .deleteRemote, none, some rf, "Deleted locally"⟩])) ∧
    DiffPush false sampleLocal sampleRemote =
      { items := [⟨"b.txt", .upload, some lbSample, none, "New file"⟩,
                  ⟨"c.txt", .deleteRemote, none, some rcSample, "Deleted locally"⟩],
        summary := ⟨1, 0, 0, 1, 2⟩ } := by
  refine ⟨fun d L R hL hR => ⟨?_, ?_, ?_, ?_⟩, by decide⟩
  · intro p lf hl hr
    rw [itemsAt_DiffPush d L R hL hR p]
    simp [hl, hr, pushItemForLocal]
  · intro p lf rf hl hr hs
    rw [itemsAt_DiffPush d L R hL hR p]
    simp [hl, hr, pushItemForLocal, pushItemForRemote, hs]
  · intro p lf rf hl hr hs
    rw [itemsAt_DiffPush d L R hL hR p]
    simp [hl, hr, pushItemForLocal, pushItemForRemote, hs]
  · intro p rf hl hr
    rw [itemsAt_DiffPush d L R hL hR p]
    simp [hl, hr, pushItemForRemote]

/-- Witness for C2: the "New file" clause applied to the scenario
inventories at path `b.txt`. -/
theorem diffPush_classification_witness :
    itemsAt "b.txt" (DiffPush false sampleLocal sampleRemote).items =
      [⟨"b.txt", .upload, some lbSample, none, "New file"⟩] :=
  ((diffPush_classification.1 false sampleLocal sampleRemote
    (by decide) (by decide)).1) "b.txt" lbSample (by decide) (by decide)

/-- C3: when hash comparison is active a local/remote pair is equivalent
(no update planned) iff the checksums are equal; when modTime comparison is
active it is equivalent iff modTime and size are equal, with a remote entry
flagged `EMPTY_FILE` counted as size 0; on the comparison-policy-switch
scenario (`local = {p: hash=H1, modTime=100, size=10}`, `remote = {p:
hash=H1, modTime=200, size=10}`) hash-mode diff plans nothing while
modTime-mode diff plans an `Upload`/"Changed". -/
theorem shouldUpdate_comparability :
    (∀ (lf : LocalFile) (rf : RemoteFile),
      (shouldUpdate false lf rf = false ↔ rf.meta.checksum = lf.checksum) ∧
      (shouldUpdate true lf rf = false ↔
        (rf.meta.modTime = lf.modTime ∧
         (if rf.meta.flags = "EMPTY_FILE" then 0 else rf.size) = lf.size))) ∧
    (DiffPush false [("p", lpSample)] [("p", rpSample)]).items = [] ∧
    (DiffPush true [("p", lpSample)] [("p", rpSample)]).items =
      [⟨"p", .upload, some lpSample, some rpSample, "Changed"⟩] := by
  refine ⟨fun lf rf => ⟨?_, ?_⟩, by decide, by decide⟩
  · simp [shouldUpdate]
  · simp [shouldUpdate]

/-- C5: `DiffPush` and `DiffPull` on the same inventory pair classify every
path identically into the new/changed/stale buckets, with actions swapped
(`Upload` ↔ `Download`, `DeleteRemote` ↔ `DeleteLocal`). -/
theorem diffPush_diffPull_symmetry (d : Bool) (L : Inventory LocalFile)
    (R : Inventory RemoteFile) (hL : keysNodup L) (hR : keysNodup R)
    (p : String) :
    match invLookup p L, invLookup p R with
    | some lf, none =>
        itemsAt p (DiffPush d L R).items =
          [⟨p, .upload, some lf, none, "New file"⟩] ∧
        itemsAt p (DiffPull d L R).items =
          [⟨p, .deleteLocal, some lf, none, "Deleted remotely"⟩]
    | some lf, some rf =>
        (shouldUpdate d lf rf = true →
          itemsAt p (DiffPush d L R).items =
            [⟨p, .upload, some lf, some rf, "Changed"⟩] ∧
          itemsAt p (DiffPull d L R).items =
            [⟨p, .download, some lf, some rf, "Changed remote"⟩]) ∧
        (shouldUpdate d lf rf = false →
          itemsAt p (DiffPush d L R).items = [] ∧
          itemsAt p (DiffPull d L R).items = [])
    | none, some rf =>
        itemsAt p (DiffPush d L R).items =
          [⟨p, .deleteRemote, none, some rf, "Deleted locally"⟩] ∧
        itemsAt p (DiffPull d L R).items =
          [⟨p, .download, none, some rf, "New remote file"⟩]
    | none, none =>
        itemsAt p (DiffPush d L R).items = [] ∧
        itemsAt p (DiffPull d L R).items = [] := by
  have hpushXX := itemsAt_DiffPush d L R hL hR p
  have hpull := itemsAt_DiffPull d L R hL hR p
  cases hl : invLookup p L with
  | none =>
    cases hr : invLookup p R with
    | none =>
      rw [hl, hr] at hpushXX hpull
      exact ⟨by simpa using hpushXX, by simpa using hpull⟩
    | some rf =>
      rw [hl, hr] at hpushXX hpull
      constructor
      · simpa [pushItemForRemote, hl] using hpushXX
      · simpa [pullItemForRemote, hl] using hpull
  | some lf =>
    cases hr : invLookup p R with
    | none =>
      rw [hl, hr] at hpushXX hpull
      constructor
      · simpa [pushItemForLocal, hr] using hpushXX
      · simpa [pullItemForLocal, hr] using hpull
    | some rf =>
      rw [hl, hr] at hpushXX hpull
      constructor
      · intro hs
        constructor
        · simpa [pushItemForLocal, pushItemForRemote, hl, hr, hs] using hpushXX
        · simpa [pullItemForRemote, pullItemForLocal, hl, hr, hs] using hpull
      · intro hs
        constructor
        · simpa [pushItemForLocal, pushItemForRemote, hl, hr, hs] using hpushXX
        · simpa [pullItemForRemote, pullItemForLocal, hl, hr, hs] using hpull

/-- Witness for C5: the symmetry theorem applied to the scenario
inventories at the remote-only path `c.txt`. -/
theorem diffPush_diffPull_symmetry_witness :
    itemsAt "c.txt" (DiffPush false sampleLocal sampleRemote).items =
      [⟨"c.txt", .deleteRemote, none, some rcSample, "Deleted locally"⟩] ∧
    itemsAt "c.txt" (DiffPull false sampleLocal sampleRemote).items =
      [⟨"c.txt", .download, none, some rcSample, "New remote file"⟩] := by
  have h := diffPush_diffPull_symmetry false sampleLocal sampleRemote
    (by decide) (by decide) "c.txt"
  have hl : invLookup "c.txt" sampleLocal = none := by decide
  have hr : invLookup "c.txt" sampleRemote = some rcSample := by decide
  rw [hl, hr] at h
  exact h

/-- C6: in every plan produced by `DiffPush` or `DiffPull` no path occurs
in the `Path` field of two distinct items. -/
theorem diff_plans_path_disjoint (d : Bool) (L : Inventory LocalFile)
    (R : Inventory RemoteFile) (hL : keysNodup L) (hR : keysNodup R) :
    (DiffPush d L R).items.Pairwise (fun a b => a.path ≠ b.path) ∧
    (DiffPull d L R).items.Pairwise (fun a b => a.path ≠ b.path) :=
  ⟨diffPush_items_pairwise d L R hL hR, diffPull_items_pairwise d L R hL hR⟩

/-- Witness for C6: path disjointness of the scenario push plan. -/
theorem diff_plans_path_disjoint_witness :
    (DiffPush false sampleLocal sampleRemote).items.Pairwise
      (fun a b => a.path ≠ b.path) :=
  (diff_plans_path_disjoint false sampleLocal sampleRemote
    (by decide) (by decide)).1

/-! ### Simulated execution of a push plan (claim C1) -/

/-- Remove every binding of `p` from an inventory. -/
def removeKey {α : Type} (p : String) : Inventory α → Inventory α
  | [] => []
  | (q, v) :: rest => if q = p then removeKey p rest else (q, v) :: removeKey p rest

/-- Replace or create the binding of `p` in an inventory. -/
def setEntry {α : Type} (m : Inventory α) (p : String) (v : α) : Inventory α :=
  (p, v) :: removeKey p m

/-- Modelled from the spec's simulated execution of C1: a completed upload
replaces or creates the remote entry for the item's path, carrying the
local file's path and comparability key. The stored metadata mirrors the
caption written by `TelegramClient.UploadFile` (methods.go): path, checksum
and modTime, with the `Flags` field left empty; the stored blob has the
local file's size, and the fresh message id is irrelevant to the differ
(written as 0). -/
def uploadResult (lf : LocalFile) : RemoteFile :=
  ⟨⟨lf.path, lf.checksum, lf.modTime, ""⟩, 0, lf.size⟩

/-- Effect of one plan item on the remote inventory under the simulated
execution of C1: an upload replaces/creates the entry, a remote deletion
removes it, any other action leaves the remote side untouched. -/
def applyPushItem (r : Inventory RemoteFile) (it : SyncItem) :
    Inventory RemoteFile :=
  match it.action, it.localFile with
  | .upload, some lf => setEntry r it.path (uploadResult lf)
  | .deleteRemote, _ => removeKey it.path r
  | _, _ => r

/-- Simulated execution of a whole plan against the remote inventory. -/
def applyPush (plan : SyncPlan) (r : Inventory RemoteFile) :
    Inventory RemoteFile :=
  plan.items.foldl applyPushItem r

/-- The lookup-level effect of a single item on its own path. -/
def pushEffect (it : SyncItem) (prev : Option RemoteFile) :
    Option RemoteFile :=
  match it.action, it.localFile with
  | .upload, some lf => some (uploadResult lf)
  | .deleteRemote, _ => none
  | _, _ => prev

theorem invLookup_removeKey {α : Type} (m : Inventory α) (p q : String) :
    invLookup q (removeKey p m) = if q = p then none else invLookup q m := by
  induction m with
  | nil => simp [removeKey, invLookup]
  | cons a rest ih =>
    obtain ⟨a1, a2⟩ := a
    by_cases hap : a1 = p <;> by_cases h1q : a1 = q <;>
      simp_all [removeKey, invLookup]

theorem invLookup_setEntry {α : Type} (m : Inventory α) (p q : String) (v : α) :
    invLookup q (setEntry m p v) = if q = p then some v else invLookup q m := by
  unfold setEntry
  rw [invLookup_cons, invLookup_removeKey]
  by_cases hqp : q = p
  · simp [hqp]
  · simp only [hqp, if_false]
    rw [if_neg fun he => hqp he.symm]

theorem invLookup_applyPushItem (r : Inventory RemoteFile) (it : SyncItem)
    (p : String) :
    invLookup p (applyPushItem r it) =
      if it.path = p then pushEffect it (invLookup p r) else invLookup p r := by
  unfold applyPushItem pushEffect
  cases it.action <;> cases it.localFile <;>
    simp [invLookup_setEntry, invLookup_removeKey] <;>
    by_cases hp : it.path = p <;> simp [hp] <;> tauto

theorem invLookup_foldl_of_not_mem (items : List SyncItem)
    (r : Inventory RemoteFile) (p : String)
    (h : ∀ it ∈ items, it.path ≠ p) :
    invLookup p (items.foldl applyPushItem r) = invLookup p r := by
  induction items generalizing r with
  | nil => rfl
  | cons it rest ih =>
    rw [List.foldl_cons]
    rw [ih _ fun b hb => h b (List.mem_cons_of_mem it hb)]
    rw [invLookup_applyPushItem]
    simp [h it (List.mem_cons_self it rest)]

theorem invLookup_foldl_applyPushItem (items : List SyncItem)
    (r : Inventory RemoteFile) (p : String)
    (hnd : items.Pairwise (fun a b => a.path ≠ b.path)) :
    invLookup p (items.foldl applyPushItem r) =
      match (itemsAt p items).head? with
      | none => invLookup p r
      | some it => pushEffect it (invLookup p r) := by
  induction items generalizing r with
  | nil => rfl
  | cons it rest ih =>
    rw [List.pairwise_cons] at hnd
    obtain ⟨hhead, hrest⟩ := hnd
    rw [List.foldl_cons]
    by_cases hp : it.path = p
    · have hnone : ∀ b ∈ rest, b.path ≠ p := fun b hb => hp ▸ (hhead b hb).symm
      have hcons : itemsAt p (it :: rest) = it :: itemsAt p rest := by
        simp [itemsAt, List.filter_cons, hp]
      have hnil : itemsAt p rest = [] := by
        refine List.eq_nil_iff_forall_not_mem.mpr fun b hb => ?_
        have := List.mem_filter.mp hb
        exact hnone b this.1 (by simpa using this.2)
      rw [hcons, hnil]
      rw [invLookup_foldl_of_not_mem rest _ p hnone]
      rw [invLookup_applyPushItem, if_pos hp]
      rfl
    · have hcons : itemsAt p (it :: rest) = itemsAt p rest := by
        simp [itemsAt, List.filter_cons, hp]
      rw [hcons, ih _ hrest]
      rw [invLookup_applyPushItem, if_neg hp]

theorem shouldUpdate_uploadResult (d : Bool) (lf : LocalFile) :
    shouldUpdate d lf (uploadResult lf) = false := by
  cases d <;> simp [shouldUpdate, uploadResult]

/-- Lookup-level description of the remote inventory after simulating the
whole push plan: every local path holds the freshly uploaded copy (or the
untouched equivalent remote entry), every other path is gone. -/
theorem invLookup_applyPush_DiffPush (d : Bool) (L : Inventory LocalFile)
    (R : Inventory RemoteFile) (hL : keysNodup L) (hR : keysNodup R)
    (p : String) :
    invLookup p (applyPush (DiffPush d L R) R) =
      match invLookup p L with
      | none => none
      | some lf =>
        match invLookup p R with
        | none => some (uploadResult lf)
        | some rf =>
          if shouldUpdate d lf rf then some (uploadResult lf) else some rf := by
  unfold applyPush
  rw [invLookup_foldl_applyPushItem _ _ _ (diffPush_items_pairwise d L R hL hR)]
  rw [itemsAt_DiffPush d L R hL hR p]
  cases hl : invLookup p L with
  | none =>
    cases hr : invLookup p R with
    | none => simp [hr]
    | some rf => simp [pushItemForRemote, hl, pushEffect]
  | some lf =>
    cases hr : invLookup p R with
    | none => simp [pushItemForLocal, hr, pushEffect]
    | some rf =>
      cases hs : shouldUpdate d lf rf with
      | true =>
        have h2 : pushItemForRemote L p rf = none := by
          simp [pushItemForRemote, hl]
        simp [pushItemForLocal, hr, hs, h2, pushEffect]
      | false =>
        have h2 : pushItemForRemote L p rf = none := by
          simp [pushItemForRemote, hl]
        simp [pushItemForLocal, hr, hs, h2, pushEffect]

/-- C1: idempotent convergence of the differ. Simulated execution of the
push plan yields a remote inventory that agrees with the local inventory on
paths and comparability keys, and a second `DiffPush` against it plans
nothing. -/
theorem diffPush_convergence (d : Bool) (L : Inventory LocalFile)
    (R : Inventory RemoteFile) (hL : keysNodup L) (hR : keysNodup R) :
    (∀ p lf, invLookup p L = some lf →
      ∃ rf, invLookup p (applyPush (DiffPush d L R) R) = some rf ∧
        shouldUpdate d lf rf = false) ∧
    (∀ p, invLookup p L = none →
      invLookup p (applyPush (DiffPush d L R) R) = none) ∧
    (DiffPush d L (applyPush (DiffPush d L R) R)).items = [] ∧
    (DiffPush d L (applyPush (DiffPush d L R) R)).summary.total = 0 := by
  have hmaster := invLookup_applyPush_DiffPush d L R hL hR
  have hsome : ∀ p lf, invLookup p L = some lf →
      ∃ rf, invLookup p (applyPush (DiffPush d L R) R) = some rf ∧
        shouldUpdate d lf rf = false := by
    intro p lf hl
    have h := hmaster p
    cases hr : invLookup p R with
    | none =>
      simp only [hl, hr] at h
      exact ⟨uploadResult lf, h, shouldUpdate_uploadResult d lf⟩
    | some rf =>
      cases hs : shouldUpdate d lf rf with
      | true =>
        simp only [hl, hr, hs, if_true] at h
        exact ⟨uploadResult lf, h, shouldUpdate_uploadResult d lf⟩
      | false =>
        simp only [hl, hr, hs, Bool.false_eq_true, if_false] at h
        exact ⟨rf, h, hs⟩
  have hnone : ∀ p, invLookup p L = none →
      invLookup p (applyPush (DiffPush d L R) R) = none := by
    intro p hl
    have h := hmaster p
    simpa only [hl] using h
  have hitems : (DiffPush d L (applyPush (DiffPush d L R) R)).items = [] := by
    apply List.append_eq_nil.mpr
    constructor
    · rw [List.filterMap_eq_nil_iff]
      intro pr hpr
      have hl : invLookup pr.1 L = some pr.2 := invLookup_eq_of_mem hL hpr
      obtain ⟨rf, hr', hs⟩ := hsome pr.1 pr.2 hl
      simp [pushItemForLocal, hr', hs]
    · rw [List.filterMap_eq_nil_iff]
      intro pr hpr
      have hk : (invLookup pr.1 (applyPush (DiffPush d L R) R)).isSome :=
        isSome_invLookup_of_mem hpr
      cases he : invLookup pr.1 L with
      | none =>
        rw [hnone pr.1 he] at hk
        cases hk
      | some lf => simp [pushItemForRemote, he]
  have htotal : (DiffPush d L (applyPush (DiffPush d L R) R)).summary.total = 0 := by
    show (DiffPush d L (applyPush (DiffPush d L R) R)).items.length = 0
    rw [hitems]
    rfl
  exact ⟨hsome, hnone, hitems, htotal⟩

/-- Witness for C1: second-pass emptiness on the scenario inventories. -/
theorem diffPush_convergence_witness :
    (DiffPush false sampleLocal
      (applyPush (DiffPush false sampleLocal sampleRemote) sampleRemote)).items = [] :=
  (diffPush_convergence false sampleLocal sampleRemote
    (by decide) (by decide)).2.2.1

/-! ### Retry wrapper (internal/pkg/retry/retry.go) -/

/-- Go error values as observed by the retry wrapper: the two
cancellation-class sentinels of the context package, any other error
(identified by its message), and the wrapping error produced by
`fmt.Errorf("%s failed after %d attempts: %w", name, maxRetries, lastErr)`
whose wrapped inner error may be Go's `nil`. -/
inductive GoError where
  | canceled
  | deadlineExceeded
  | other (msg : String)
  | wrappedNil (name : String) (attempts : Int)
  | wrappedErr (name : String) (attempts : Int) (inner : GoError)
deriving DecidableEq, Repr

/-- The error built by
`fmt.Errorf("%s failed after %d attempts: %w", name, maxRetries, lastErr)`,
distinguishing a Go `nil` last error from a real one. -/
def GoError.wrapOf (name : String) (attempts : Int) :
    Option GoError → GoError
  | none => .wrappedNil name attempts
  | some e => .wrappedErr name attempts e

/-- Embedding of
`errors.Is(err, context.Canceled) || errors.Is(err, context.DeadlineExceeded)`,
unwrapping `%w`-wrapped errors the way `errors.Is` does. -/
def isCancellation : GoError → Bool
  | .canceled => true
  | .deadlineExceeded => true
  | .wrappedErr _ _ e => isCancellation e
  | _ => false

/-- Environment for one run of `WithRetry`: `op k` is the error returned by
the k-th invocation of the operation (`none` is Go's `nil`), and
`ctxDoneDuringWait k` is `some` of `ctx.Err()` when the context is observed
done during the backoff wait that precedes attempt `k`. -/
structure RetryEnv where
  op : Nat → Option GoError
  ctxDoneDuringWait : Nat → Option GoError

/-- Observable outcome of a `WithRetry` run: the returned error (`none` is
Go's `nil`), the number of invocations of the operation, and the
multipliers `2^(k-2)` (in units of `baseDelay`) of the backoff waits that
were actually slept to completion. -/
structure RetryTrace where
  result : Option GoError
  invocations : Nat
  waits : List Nat
deriving DecidableEq, Repr

/-- Embedding of the loop body of `retry.WithRetry`: `fuel` counts the
remaining loop iterations (`maxRetries - attempt + 1`), `attempt` is the
1-based attempt counter of the source, `lastErr`, `invocs` and `waits` the
accumulated state. Each iteration first performs the cancellable backoff
wait (for attempts after the first), then invokes the operation once,
returning on success or on a cancellation-class error. -/
def retryLoop (env : RetryEnv) (name : String) (maxRetries : Int) :
    Nat → Nat → Option GoError → Nat → List Nat → RetryTrace
  | 0, _, lastErr, invocs, waits =>
    ⟨some (GoError.wrapOf name maxRetries lastErr), invocs, waits⟩
  | fuel + 1, attempt, _lastErr, invocs, waits =>
    match (if attempt > 1 then env.ctxDoneDuringWait attempt else none) with
    | some ce => ⟨some ce, invocs, waits⟩
    | none =>
      let waits' := if attempt > 1 then waits ++ [2 ^ (attempt - 2)] else waits
      match env.op (invocs + 1) with
      | none => ⟨none, invocs + 1, waits'⟩
      | some e =>
        if isCancellation e then ⟨some e, invocs + 1, waits'⟩
        else retryLoop env name maxRetries fuel (attempt + 1) (some e) (invocs + 1) waits'

/-- Embedding of `retry.WithRetry`: runs the loop from attempt 1; a
non-positive `maxRetries` runs the loop body zero times and falls through
to the wrapped failure error with a `nil` last error. -/
def WithRetry (env : RetryEnv) (name : String) (maxRetries : Int) : RetryTrace :=
  retryLoop env name maxRetries maxRetries.toNat 1 none 0 []

/-- The waits accumulated when entering the loop iteration of attempt `a`:
one completed backoff of `2^(k-2)` for every attempt `k` in `2..a-1`. -/
def waitsBefore (a : Nat) : List Nat :=
  (List.range (a - 2)).map fun i => 2 ^ i

theorem waitsBefore_succ (a : Nat) (ha : 1 ≤ a) :
    (if a > 1 then waitsBefore a ++ [2 ^ (a - 2)] else waitsBefore a) =
      waitsBefore (a + 1) := by
  by_cases h1 : a = 1
  · subst h1
    simp [waitsBefore]
  · have h2 : 2 ≤ a := by omega
    rw [if_pos (by omega)]
    unfold waitsBefore
    have : a + 1 - 2 = (a - 2) + 1 := by omega
    rw [this, List.range_succ, List.map_append]
    rfl

theorem retryLoop_advance (env : RetryEnv) (name : String) (maxRetries : Int)
    (efn : Nat → GoError) (s : Nat)
    (hctx : ∀ k, 2 ≤ k → k < s → env.ctxDoneDuringWait k = none)
    (hfail : ∀ k, 1 ≤ k → k < s →
      env.op k = some (efn k) ∧ isCancellation (efn k) = false) :
    ∀ fuel a le, 1 ≤ a → a ≤ s → s - a ≤ fuel →
      le = (if a = 1 then none else some (efn (a - 1))) →
      retryLoop env name maxRetries fuel a le (a - 1) (waitsBefore a) =
        retryLoop env name maxRetries (fuel - (s - a)) s
          (if s = 1 then none else some (efn (s - 1))) (s - 1) (waitsBefore s) := by
  intro fuel
  induction fuel with
  | zero =>
    intro a le ha has hfuel hle
    have heq : a = s := by omega
    subst heq
    rw [hle, Nat.sub_self, Nat.sub_zero]
  | succ n ih =>
    intro a le ha has hfuel hle
    by_cases heq : a = s
    · subst heq
      rw [hle, Nat.sub_self, Nat.sub_zero]
    · have hlt : a < s := by omega
      have hcd : (if a > 1 then env.ctxDoneDuringWait a else none) = none := by
        by_cases h1 : a > 1
        · rw [if_pos h1]
          exact hctx a (by omega) hlt
        · rw [if_neg h1]
      obtain ⟨hop, hnc⟩ := hfail a ha hlt
      have hinv : a - 1 + 1 = a := by omega
      rw [show retryLoop env name maxRetries (n + 1) a le (a - 1) (waitsBefore a) =
          retryLoop env name maxRetries n (a + 1) (some (efn a)) a
            (if a > 1 then waitsBefore a ++ [2 ^ (a - 2)] else waitsBefore a) from by
        simp only [retryLoop, hcd, hinv, hop, hnc, Bool.false_eq_true, if_false]]
      rw [waitsBefore_succ a ha]
      have hres := ih (a + 1) (some (efn a)) (by omega) (by omega) (by omega)
        (by rw [if_neg (by omega)]; simp)
      rw [show a + 1 - 1 = a from by omega] at hres
      rw [hres]
      congr 1
      omega

/-- General success run: attempts `1..s-1` fail with non-cancellation
errors, attempt `s ≤ maxRetries` succeeds; `WithRetry` returns `nil` after
exactly `s` invocations, having slept `baseDelay * 2^(k-2)` before each
attempt `k` in `2..s`. -/
theorem withRetry_success (env : RetryEnv) (name : String) (m s : Nat)
    (efn : Nat → GoError) (hs : 1 ≤ s) (hsm : s ≤ m)
    (hctx : ∀ k, env.ctxDoneDuringWait k = none)
    (hfail : ∀ k, 1 ≤ k → k < s →
      env.op k = some (efn k) ∧ isCancellation (efn k) = false)
    (hok : env.op s = none) :
    WithRetry env name (m : Int) =
      ⟨none, s, (List.range (s - 1)).map fun i => 2 ^ i⟩ := by
  unfold WithRetry
  rw [show ((m : Int)).toNat = m from Int.toNat_natCast m]
  have hadv := retryLoop_advance env name (m : Int) efn s
    (fun k _ _ => hctx k) hfail m 1 none (by omega) hs (by omega) (by simp)
  rw [show (1 : Nat) - 1 = 0 from rfl, show waitsBefore 1 = [] from rfl] at hadv
  rw [hadv]
  have hfuel : 1 ≤ m - (s - 1) := by omega
  obtain ⟨n, hn⟩ : ∃ n, m - (s - 1) = n + 1 := ⟨m - (s - 1) - 1, by omega⟩
  rw [hn]
  have hcd : (if s > 1 then env.ctxDoneDuringWait s else none) = none := by
    by_cases h1 : s > 1
    · rw [if_pos h1]; exact hctx s
    · rw [if_neg h1]
  have hinv : s - 1 + 1 = s := by omega
  simp only [retryLoop, hcd, hinv, hok]
  rw [waitsBefore_succ s hs]
  rfl

/-- General exhaustion run: all `maxRetries ≥ 1` attempts fail with
non-cancellation errors; `WithRetry` wraps the last error with the
operation name and attempt count, after exactly `maxRetries` invocations
and no sleep after the last failure. -/
theorem withRetry_exhaust (env : RetryEnv) (name : String) (m : Nat)
    (efn : Nat → GoError) (hm : 1 ≤ m)
    (hctx : ∀ k, env.ctxDoneDuringWait k = none)
    (hfail : ∀ k, 1 ≤ k → k ≤ m →
      env.op k = some (efn k) ∧ isCancellation (efn k) = false) :
    WithRetry env name (m : Int) =
      ⟨some (.wrappedErr name (m : Int) (efn m)), m,
        (List.range (m - 1)).map fun i => 2 ^ i⟩ := by
  unfold WithRetry
  rw [show ((m : Int)).toNat = m from Int.toNat_natCast m]
  have hadv := retryLoop_advance env name (m : Int) efn (m + 1)
    (fun k _ _ => hctx k) (fun k h1 hk => hfail k h1 (by omega))
    m 1 none (by omega) (by omega) (by omega) (by simp)
  rw [show (1 : Nat) - 1 = 0 from rfl, show waitsBefore 1 = [] from rfl] at hadv
  rw [hadv]
  rw [show m - (m + 1 - 1) = 0 from by omega]
  rw [if_neg (by omega)]
  rw [show m + 1 - 1 = m from by omega]
  rfl

/-- General cancellation-at-attempt run: attempts `1..s-1` fail with
non-cancellation errors and attempt `s` returns a cancellation-class
error; `WithRetry` returns that error at once, after exactly `s`
invocations. -/
theorem withRetry_cancelAt (env : RetryEnv) (name : String) (m s : Nat)
    (efn : Nat → GoError) (ce : GoError) (hs : 1 ≤ s) (hsm : s ≤ m)
    (hctx : ∀ k, env.ctxDoneDuringWait k = none)
    (hfail : ∀ k, 1 ≤ k → k < s →
      env.op k = some (efn k) ∧ isCancellation (efn k) = false)
    (hce : env.op s = some ce) (hcc : isCancellation ce = true) :
    WithRetry env name (m : Int) =
      ⟨some ce, s, (List.range (s - 1)).map fun i => 2 ^ i⟩ := by
  unfold WithRetry
  rw [show ((m : Int)).toNat = m from Int.toNat_natCast m]
  have hadv := retryLoop_advance env name (m : Int) efn s
    (fun k _ _ => hctx k) hfail m 1 none (by omega) hs (by omega) (by simp)
  rw [show (1 : Nat) - 1 = 0 from rfl, show waitsBefore 1 = [] from rfl] at hadv
  rw [hadv]
  obtain ⟨n, hn⟩ : ∃ n, m - (s - 1) = n + 1 := ⟨m - (s - 1) - 1, by omega⟩
  rw [hn]
  have hcd : (if s > 1 then env.ctxDoneDuringWait s else none) = none := by
    by_cases h1 : s > 1
    · rw [if_pos h1]; exact hctx s
    · rw [if_neg h1]
  have hinv : s - 1 + 1 = s := by omega
  simp only [retryLoop, hcd, hinv, hce, hcc, if_true]
  rw [waitsBefore_succ s hs]
  rfl

/-- General wait-cancellation run: attempts `1..s-1` fail with
non-cancellation errors and the context is observed done during the
backoff wait preceding attempt `s ≤ maxRetries`; `WithRetry` returns the
context error with only `s-1` invocations and without completing the
wait. -/
theorem withRetry_ctxCancel (env : RetryEnv) (name : String) (m s : Nat)
    (efn : Nat → GoError) (ce : GoError) (hs : 2 ≤ s) (hsm : s ≤ m)
    (hctx : ∀ k, 2 ≤ k → k < s → env.ctxDoneDuringWait k = none)
    (hfail : ∀ k, 1 ≤ k → k < s →
      env.op k = some (efn k) ∧ isCancellation (efn k) = false)
    (hcw : env.ctxDoneDuringWait s = some ce) :
    WithRetry env name (m : Int) =
      ⟨some ce, s - 1, (List.range (s - 2)).map fun i => 2 ^ i⟩ := by
  unfold WithRetry
  rw [show ((m : Int)).toNat = m from Int.toNat_natCast m]
  have hadv := retryLoop_advance env name (m : Int) efn s
    hctx hfail m 1 none (by omega) (by omega) (by omega) (by simp)
  rw [show (1 : Nat) - 1 = 0 from rfl, show waitsBefore 1 = [] from rfl] at hadv
  rw [hadv]
  obtain ⟨n, hn⟩ : ∃ n, m - (s - 1) = n + 1 := ⟨m - (s - 1) - 1, by omega⟩
  rw [hn]
  have hcd : (if s > 1 then env.ctxDoneDuringWait s else none) = some ce := by
    rw [if_pos (by omega)]
    exact hcw
  simp only [retryLoop, hcd]
  rfl

/-- C7: attempt 1 runs immediately and attempt `k > 1` is preceded by a
completed wait of `baseDelay * 2^(k-2)`; an operation failing on attempts
1-4 and succeeding on attempt 5 with `maxAttempts = 5` returns `nil` after
exactly 5 invocations (waits 1,2,4,8 in `baseDelay` units); an operation
always failing with non-cancellation errors and `maxAttempts = 3` is
invoked exactly 3 times, sleeps only before attempts 2 and 3, and returns
an error wrapping the last error with the attempt count and the operation
name. -/
theorem withRetry_schedule :
    (∀ (env : RetryEnv) (name : String) (m s : Nat) (efn : Nat → GoError),
      1 ≤ s → s ≤ m →
      (∀ k, env.ctxDoneDuringWait k = none) →
      (∀ k, 1 ≤ k → k < s →
        env.op k = some (efn k) ∧ isCancellation (efn k) = false) →
      env.op s = none →
      WithRetry env name (m : Int) =
        ⟨none, s, (List.range (s - 1)).map fun i => 2 ^ i⟩) ∧
    (∀ (env : RetryEnv) (name : String) (m : Nat) (efn : Nat → GoError),
      1 ≤ m →
      (∀ k, env.ctxDoneDuringWait k = none) →
      (∀ k, 1 ≤ k → k ≤ m →
        env.op k = some (efn k) ∧ isCancellation (efn k) = false) →
      WithRetry env name (m : Int) =
        ⟨some (.wrappedErr name (m : Int) (efn m)), m,
          (List.range (m - 1)).map fun i => 2 ^ i⟩) ∧
    (∀ (env : RetryEnv) (name : String) (efn : Nat → GoError),
      (∀ k, env.ctxDoneDuringWait k = none) →
      (∀ k, 1 ≤ k → k ≤ 4 →
        env.op k = some (efn k) ∧ isCancellation (efn k) = false) →
      env.op 5 = none →
      WithRetry env name 5 = ⟨none, 5, [1, 2, 4, 8]⟩) ∧
    (∀ (env : RetryEnv) (name : String) (efn : Nat → GoError),
      (∀ k, env.ctxDoneDuringWait k = none) →
      (∀ k, 1 ≤ k → k ≤ 3 →
        env.op k = some (efn k) ∧ isCancellation (efn k) = false) →
      WithRetry env name 3 =
        ⟨some (.wrappedErr name 3 (efn 3)), 3, [1, 2]⟩) := by
  refine ⟨withRetry_success, withRetry_exhaust, fun env name efn hctx hf hok => ?_, 
    fun env name efn hctx hf => ?_⟩
  · have h := withRetry_success env name 5 5 efn (by omega) (by omega) hctx
      (fun k h1 h5 => hf k h1 (by omega)) hok
    simpa using h
  · have h := withRetry_exhaust env name 3 efn (by omega) hctx hf
    simpa using h

/-- Sample environment for the retry scenarios: the operation fails with a
plain error on its first four invocations and succeeds afterwards; the
context is never cancelled. -/
def retryEnvFail4 : RetryEnv :=
  ⟨fun k => if k ≤ 4 then some (.other "boom") else none, fun _ => none⟩

/-- Witness for C7: the fail-four-then-succeed environment under
`maxRetries = 5`. -/
theorem withRetry_schedule_witness :
    WithRetry retryEnvFail4 "Pull: a.txt" 5 = ⟨none, 5, [1, 2, 4, 8]⟩ :=
  withRetry_schedule.2.2.1 retryEnvFail4 "Pull: a.txt" (fun _ => .other "boom")
    (fun _ => rfl)
    (fun k _ h4 => ⟨by simp [retryEnvFail4, h4], rfl⟩)
    (by simp [retryEnvFail4])

/-- C8: a cancellation-class error returned by any attempt propagates at
once (after exactly that many invocations); in particular an operation
returning such an error on attempt 1 is invoked exactly once regardless of
`maxAttempts`; and a context cancellation observed during the backoff wait
before attempt 2 returns the context error after a single invocation,
without completing the wait. -/
theorem withRetry_cancellation :
    (∀ (env : RetryEnv) (name : String) (m s : Nat) (efn : Nat → GoError)
      (ce : GoError),
      1 ≤ s → s ≤ m →
      (∀ k, env.ctxDoneDuringWait k = none) →
      (∀ k, 1 ≤ k → k < s →
        env.op k = some (efn k) ∧ isCancellation (efn k) = false) →
      env.op s = some ce → isCancellation ce = true →
      WithRetry env name (m : Int) =
        ⟨some ce, s, (List.range (s - 1)).map fun i => 2 ^ i⟩) ∧
    (∀ (env : RetryEnv) (name : String) (m : Nat) (e : GoError),
      1 ≤ m →
      (∀ k, env.ctxDoneDuringWait k = none) →
      env.op 1 = some e → isCancellation e = true →
      WithRetry env name (m : Int) = ⟨some e, 1, []⟩) ∧
    (∀ (env : RetryEnv) (name : String) (m : Nat) (e1 ce : GoError),
      2 ≤ m →
      env.op 1 = some e1 → isCancellation e1 = false →
      env.ctxDoneDuringWait 2 = some ce →
      WithRetry env name (m : Int) = ⟨some ce, 1, []⟩) := by
  refine ⟨fun env name m s efn ce hs hsm hctx hfail hce hcc =>
      withRetry_cancelAt env name m s efn ce hs hsm hctx hfail hce hcc,
    fun env name m e hm hctx h1 hc => ?_, fun env name m e1 ce hm h1 hnc hcw => ?_⟩
  · have h := withRetry_cancelAt env name m 1 (fun _ => e) e (by omega) hm hctx
      (fun k hk1 hk => by omega) h1 hc
    simpa using h
  · have h := withRetry_ctxCancel env name m 2 (fun _ => e1) ce (by omega) hm
      (fun k hk1 hk => by omega)
      (fun k hk1 hk => by
        have : k = 1 := by omega
        subst this
        exact ⟨h1, hnc⟩)
      hcw
    simpa using h

/-- Sample environment for the cancellation scenario: the very first
invocation reports context cancellation. -/
def retryEnvCancel1 : RetryEnv :=
  ⟨fun _ => some .canceled, fun _ => none⟩

/-- Witness for C8: a cancelled first attempt under `maxRetries = 5` is
invoked exactly once. -/
theorem withRetry_cancellation_witness :
    WithRetry retryEnvCancel1 "Pull: a.txt" ((5 : Nat) : Int) =
      ⟨some .canceled, 1, []⟩ :=
  withRetry_cancellation.2.1 retryEnvCancel1 "Pull: a.txt" 5 .canceled
    (by omega) (fun _ => rfl) rfl rfl

/-- C10: a non-positive `maxRetries` never invokes the operation and still
returns the non-nil wrapped error `"<name> failed after <maxRetries>
attempts"` around a `nil` last error. -/
theorem withRetry_nonpositive (env : RetryEnv) (name : String) (m : Int)
    (hm : m ≤ 0) :
    WithRetry env name m = ⟨some (.wrappedNil name m), 0, []⟩ := by
  unfold WithRetry
  rw [Int.toNat_of_nonpos hm]
  rfl

/-- Witness for C10: `maxRetries = 0` with an operation that would
succeed. -/
theorem withRetry_nonpositive_witness :
    WithRetry ⟨fun _ => none, fun _ => none⟩ "Push: a.txt" 0 =
      ⟨some (.wrappedNil "Push: a.txt" 0), 0, []⟩ :=
  withRetry_nonpositive ⟨fun _ => none, fun _ => none⟩ "Push: a.txt" 0
    (by omega)

/-! ### Executor (internal/usecase/executor.go) -/

/-- Environment for one `Execute` run: the outcome of each collaborator
call, keyed by the item path. `uploadErr` is the result of
`storage.UploadFile`, `downloadOpErr` the overall result of the retried
download operation for that path, and `deleteRemoteErr`/`deleteLocalErr`
the results of the respective delete calls (the former also covers the
stale-copy deletion attempted after a replacing upload). -/
structure ExecEnv where
  uploadErr : String → Option GoError
  downloadOpErr : String → Option GoError
  deleteRemoteErr : String → Option GoError
  deleteLocalErr : String → Option GoError

/-- Embedding of `executor.processItem` and the four helpers it dispatches
to. `upload` fails when `LocalFile` is nil, otherwise returns the storage
upload result; on success the stale-copy deletion (when `RemoteFile` is
set) is attempted but its result is only logged, so it does not appear in
the returned error. `download` fails when `RemoteFile` is nil and
otherwise returns the overall result of the retried download operation.
The `fmt.Errorf` message wrapping of the source is elided: only the
nil-ness and identity of the underlying error are modelled. The switch's
default case returns `nil`. -/
def processItem (env : ExecEnv) (it : SyncItem) : Option GoError :=
  match it.action with
  | .upload =>
    match it.localFile with
    | none => some (.other ("local file is nil for upload: " ++ it.path))
    | some _ =>
      match env.uploadErr it.path with
      | some e => some e
      | none => none
  | .download =>
    match it.remoteFile with
    | none => some (.other ("remote file is nil for download: " ++ it.path))
    | some _ => env.downloadOpErr it.path
  | .deleteRemote =>
    match it.remoteFile with
    | none => some (.other ("remote file is nil for delete: " ++ it.path))
    | some _ => env.deleteRemoteErr it.path
  | .deleteLocal => env.deleteLocalErr it.path
  | .skip => none

/-- The partition predicate of `Execute`: delete actions are deferred to
the sequential second phase. -/
def isDeleteAction (it : SyncItem) : Bool :=
  decide (it.action = .deleteRemote ∨ it.action = .deleteLocal)

/-- First non-nil error of a list of results, as collected by
`errgroup.Wait`. -/
def firstErr : List (Option GoError) → Option GoError
  | [] => none
  | none :: rest => firstErr rest
  | some e :: _ => some e

/-- Observable outcome of `executor.Execute`: the returned error and the
paths of the delete items that were attempted. -/
structure ExecResult where
  err : Option GoError
  deletesAttempted : List String
deriving DecidableEq, Repr

/-- Embedding of `executor.Execute` with no confirmation UI wired in: an
empty plan (`Summary.Total == 0`) returns `nil` immediately; otherwise the
non-delete items run as the transfer phase and the first transfer error is
returned before any deletion is attempted; when every transfer succeeds
each delete item is attempted in plan order, failures being logged and
skipped, and `nil` is returned. The bounded worker pool is modelled
sequentially: only which transfer items fail, not their interleaving,
affects the returned error. -/
def Execute (env : ExecEnv) (plan : SyncPlan) : ExecResult :=
  if plan.summary.total = 0 then ⟨none, []⟩
  else
    match firstErr ((plan.items.filter fun it => !(isDeleteAction it)).map
        (processItem env)) with
    | some e => ⟨some e, []⟩
    | none => ⟨none, (plan.items.filter fun it => isDeleteAction it).map
        fun it => it.path⟩

theorem firstErr_eq_none_iff (l : List (Option GoError)) :
    firstErr l = none ↔ ∀ x ∈ l, x = none := by
  induction l with
  | nil => simp [firstErr]
  | cons x rest ih =>
    cases x with
    | none => simp [firstErr, ih]
    | some e => simp [firstErr]

theorem processItem_congr (env env₂ : ExecEnv) (it : SyncItem)
    (hup : env₂.uploadErr = env.uploadErr)
    (hdown : env₂.downloadOpErr = env.downloadOpErr)
    (hnd : isDeleteAction it = false) :
    processItem env₂ it = processItem env it := by
  unfold processItem
  unfold isDeleteAction at hnd
  cases ha : it.action <;> simp [ha] at hnd ⊢ <;>
    simp [hup, hdown]

/-- C9: `Execute` returns `nil` iff every transfer-phase item (the
non-delete items) succeeded; whenever the transfer phase succeeds every
delete item is attempted, whatever the outcomes of the delete calls; and
the returned value is unchanged by any change to the delete-call outcomes
(including the stale-copy deletion after a replacing upload). -/
theorem execute_return_semantics (env : ExecEnv) (plan : SyncPlan)
    (htotal : plan.summary.total = plan.items.length) :
    ((Execute env plan).err = none ↔
      ∀ it ∈ plan.items, isDeleteAction it = false →
        processItem env it = none) ∧
    ((∀ it ∈ plan.items, isDeleteAction it = false →
        processItem env it = none) →
      (Execute env plan).deletesAttempted =
        (plan.items.filter fun it => isDeleteAction it).map fun it => it.path) ∧
    (∀ env₂ : ExecEnv, env₂.uploadErr = env.uploadErr →
      env₂.downloadOpErr = env.downloadOpErr →
      Execute env₂ plan = Execute env plan) := by
  by_cases h0 : plan.summary.total = 0
  · have hnil : plan.items = [] := by
      rw [h0] at htotal
      exact List.eq_nil_of_length_eq_zero htotal.symm
    refine ⟨?_, ?_, ?_⟩
    · simp [Execute, h0, hnil]
    · simp [Execute, h0, hnil]
    · intro env₂ _ _
      simp [Execute, h0]
  · have hkey : ∀ envx : ExecEnv,
        (firstErr ((plan.items.filter fun it => !(isDeleteAction it)).map
          (processItem envx)) = none ↔
        ∀ it ∈ plan.items, isDeleteAction it = false →
          processItem envx it = none) := by
      intro envx
      rw [firstErr_eq_none_iff]
      constructor
      · intro h it hmem hnd
        exact h _ (List.mem_map_of_mem _
          (List.mem_filter.mpr ⟨hmem, by simp [hnd]⟩))
      · intro h x hx
        obtain ⟨it, hit, hxe⟩ := List.mem_map.mp hx
        have hf := List.mem_filter.mp hit
        exact hxe ▸ h it hf.1 (by simpa using hf.2)
    refine ⟨?_, ?_, ?_⟩
    · unfold Execute
      rw [if_neg h0]
      cases hfe : firstErr ((plan.items.filter fun it => !(isDeleteAction it)).map
          (processItem env)) with
      | none => simpa [hfe] using (hkey env).mp hfe
      | some e =>
        simp only [hfe]
        constructor
        · intro hc
          cases hc
        · intro hall
          have := (hkey env).mpr hall
          rw [hfe] at this
          cases this
    · intro hall
      unfold Execute
      rw [if_neg h0]
      have hfe := (hkey env).mpr hall
      rw [hfe]
    · intro env₂ hup hdown
      unfold Execute
      rw [if_neg h0, if_neg h0]
      have hmap : (plan.items.filter fun it => !(isDeleteAction it)).map
            (processItem env₂) =
          (plan.items.filter fun it => !(isDeleteAction it)).map
            (processItem env) := by
        apply List.map_congr_left
        intro it hit
        have hf := List.mem_filter.mp hit
        exact processItem_congr env env₂ it hup hdown (by simpa using hf.2)
      rw [hmap]

/-- Execution environment in which every collaborator call succeeds. -/
def execEnvOk : ExecEnv :=
  ⟨fun _ => none, fun _ => none, fun _ => none, fun _ => none⟩

/-- Execution environment in which every delete call fails but transfers
succeed. -/
def execEnvDeleteFail : ExecEnv :=
  ⟨fun _ => none, fun _ => none,
   fun _ => some (.other "delete failed"), fun _ => some (.other "delete failed")⟩

/-- Witness for C9: making every delete call fail changes neither the
returned error nor the set of attempted deletions on the scenario push
plan. -/
theorem execute_return_semantics_witness :
    Execute execEnvDeleteFail (DiffPush false sampleLocal sampleRemote) =
      Execute execEnvOk (DiffPush false sampleLocal sampleRemote) :=
  (execute_return_semantics execEnvOk
    (DiffPush false sampleLocal sampleRemote) rfl).2.2
    execEnvDeleteFail rfl rfl

/-! ### Empty-file round trip (claim C4) -/

/-- The caption metadata written by `TelegramClient.UploadFile`
(methods.go): path, checksum and modTime of the local file. The source
never populates the `Flags` field — not even in the `file.Size == 0`
special case, which only switches the raw upload to `FromBytes(ctx, name,
[]byte\x7b\x7d)`. -/
def uploadMeta (file : LocalFile) : FileMeta :=
  { path := file.path, checksum := file.checksum, modTime := file.modTime,
    flags := "" }

/-- Observable effect of one download attempt in `executor.download`
(executor.go): number of content bytes written locally and whether a
network transfer was performed. -/
structure DownloadEffect where
  writtenBytes : Int
  networkTransfer : Bool
deriving DecidableEq, Repr

/-- Embedding of the `operation` closure of `executor.download`: a remote
entry flagged `EMPTY_FILE` is restored by writing an empty string locally,
with no call to `storage.DownloadFile`; any other entry is streamed from
storage and written in full. -/
def downloadEffect (rf : RemoteFile) : DownloadEffect :=
  if rf.meta.flags = "EMPTY_FILE" then ⟨0, false⟩ else ⟨rf.size, true⟩

/-- A local zero-byte file at path `p` (checksum of the empty content). -/
def emptyLocalFile : LocalFile :=
  ⟨"p", "d41d8cd98f00b204e9800998ecf8427e", 100, 0, "/root/p"⟩

/-- A remote entry for `p` carrying the `EMPTY_FILE` flag over a 1-byte
placeholder blob, as the spec describes. -/
def emptyRemoteEntry : RemoteFile := ⟨⟨"p", "", 100, "EMPTY_FILE"⟩, 7, 1⟩

/-- C4, evaluated at the failing input: the push plan for a zero-byte
local file does contain an `Upload` for `p`; but the metadata record that
`TelegramClient.UploadFile` writes for it carries empty flags, not
`EMPTY_FILE`, contradicting the claimed round trip (and the repository's
own README). The remaining legs of the claim hold of the code: against a
remote entry that does carry `EMPTY_FILE`, `DiffPull` over an empty local
inventory produces a `Download` for `p`, and executing it writes a genuine
zero-length file with no network transfer. -/
theorem emptyFile_roundTrip_code_bug :
    ((DiffPush false [("p", emptyLocalFile)] []).items.map fun it => it.action)
        = [.upload] ∧
    (uploadMeta emptyLocalFile).flags = "" ∧
    ¬(uploadMeta emptyLocalFile).flags = "EMPTY_FILE" ∧
    (DiffPull false [] [("p", emptyRemoteEntry)]).items =
      [⟨"p", .download, none, some emptyRemoteEntry, "New remote file"⟩] ∧
    downloadEffect emptyRemoteEntry = ⟨0, false⟩ :=
  ⟨by decide, rfl, by decide, by decide, by decide⟩

end TgBlobSync
